import Mathlib

/-!
A shallow embedding of the `yart` ray tracer (src/main.cpp) over the reals,
together with proofs of the specification's claims about it.

Floating-point scalars (`float`) are modelled as real numbers; `QVector3D`
becomes the record `Vec3` with componentwise arithmetic, dot product and
Qt-style normalization (the zero vector normalizes to itself).
-/

namespace Yart

open Real

/-- `QVector3D`: a triple of scalars. -/
structure Vec3 where
  x : ℝ
  y : ℝ
  z : ℝ

namespace Vec3

instance : Add Vec3 := ⟨fun a b => ⟨a.x + b.x, a.y + b.y, a.z + b.z⟩⟩

instance : Sub Vec3 := ⟨fun a b => ⟨a.x - b.x, a.y - b.y, a.z - b.z⟩⟩

instance : Neg Vec3 := ⟨fun a => ⟨-a.x, -a.y, -a.z⟩⟩

/-- Componentwise product, as `QVector3D::operator*(QVector3D, QVector3D)`. -/
instance : Mul Vec3 := ⟨fun a b => ⟨a.x * b.x, a.y * b.y, a.z * b.z⟩⟩

/-- Scalar multiplication, as `QVector3D::operator*(float, QVector3D)`. -/
instance : SMul ℝ Vec3 := ⟨fun k a => ⟨k * a.x, k * a.y, k * a.z⟩⟩

instance : Zero Vec3 := ⟨⟨0, 0, 0⟩⟩

theorem add_def (a b : Vec3) : a + b = ⟨a.x + b.x, a.y + b.y, a.z + b.z⟩ := rfl

theorem sub_def (a b : Vec3) : a - b = ⟨a.x - b.x, a.y - b.y, a.z - b.z⟩ := rfl

theorem mul_def (a b : Vec3) : a * b = ⟨a.x * b.x, a.y * b.y, a.z * b.z⟩ := rfl

theorem smul_def (k : ℝ) (a : Vec3) : k • a = ⟨k * a.x, k * a.y, k * a.z⟩ := rfl

theorem zero_def : (0 : Vec3) = ⟨0, 0, 0⟩ := rfl

theorem zero_x : (0 : Vec3).x = 0 := rfl

theorem zero_y : (0 : Vec3).y = 0 := rfl

theorem zero_z : (0 : Vec3).z = 0 := rfl

theorem mk_zero : (⟨0, 0, 0⟩ : Vec3) = 0 := rfl

/-- `QVector3D::dotProduct`. -/
def dot (a b : Vec3) : ℝ := a.x * b.x + a.y * b.y + a.z * b.z

/-- `QVector3D::lengthSquared`. -/
def lengthSquared (v : Vec3) : ℝ := dot v v

/-- `QVector3D::normalized`: the zero vector is returned unchanged,
otherwise the vector is divided by its length. -/
noncomputable def normalized (v : Vec3) : Vec3 :=
  if lengthSquared v = 0 then 0 else (1 / Real.sqrt (lengthSquared v)) • v

end Vec3

open Vec3

/-- Colors are `QVector3D`s (`using Color = QVector3D`). -/
abbrev Color := Vec3

/-- The `Bulb` light: a `center` and a `color`. -/
structure Bulb where
  center : Vec3
  color : Color

/-- `Bulb::power`: intensity by the angle between the bulb-to-point
direction and the surface normal, with a 90-degree cutoff. -/
noncomputable def Bulb.power (l : Bulb) (origin normalDirection : Vec3) : ℝ :=
  let v1 := (origin - l.center).normalized
  let v2 := normalDirection
  let rad := Real.arccos (dot v1 v2)
  if |rad| > π / 2 then 0 else 1 - |rad| / (π / 2)

/-- The `Sphere` shape: `center_`, `radius_`, plus the `Shape` fields
`color` and `mirror`. -/
structure Sphere where
  center : Vec3
  radius : ℝ
  color : Color
  mirror : ℝ

/-- A successful intersection record: the three out-parameters of
`Shape::intersects`. -/
structure Hit where
  point : Vec3
  normal : Vec3
  reflection : Vec3

/-- The mirror-reflection formula from `Sphere::intersects`:
`direction - 2 * normal * dot(direction, normal)`. -/
def reflect (direction normal : Vec3) : Vec3 :=
  direction - (2 * dot direction normal) • normal

/-- `Sphere::intersects`: quadratic ray-sphere test in the
`m = origin - center` form, with early rejection, discriminant test, and
`t = max(0, -b - sqrt(discr))`. -/
noncomputable def Sphere.intersects (s : Sphere) (origin direction : Vec3) :
    Option Hit :=
  let m := origin - s.center
  let b := dot direction m
  let c := dot m m - s.radius * s.radius
  if c > 0 ∧ b > 0 then none
  else
    let discr := b * b - c
    if discr < 0 then none
    else
      let t := max 0 (-b - Real.sqrt discr)
      let intersection := origin + t • direction
      let normal := (intersection - s.center).normalized
      some ⟨intersection, normal, reflect direction normal⟩

/-- `allBut`: a copy of the list with the element at `index` removed
(`QVector::removeAt`). -/
def allBut (shapes : List Sphere) (index : ℕ) : List Sphere :=
  shapes.eraseIdx index

/-- The nearest-hit loop of `cast`: walk the shapes in order, keeping the
hit with the strictly smallest squared distance from `origin` (ties keep
the earlier shape).  The accumulator carries
`(shapeIndex, shape, hit record, shortestDistanceSquared)`. -/
noncomputable def findNearestAux (origin direction : Vec3) :
    List Sphere → ℕ → Option (ℕ × Sphere × Hit × ℝ) →
      Option (ℕ × Sphere × Hit × ℝ)
  | [], _, best => best
  | shape :: rest, index, best =>
    match shape.intersects origin direction with
    | none => findNearestAux origin direction rest (index + 1) best
    | some hit =>
      let distanceSquared := lengthSquared (hit.point - origin)
      match best with
      | none =>
        findNearestAux origin direction rest (index + 1)
          (some (index, shape, hit, distanceSquared))
      | some (bi, bs, bh, bd) =>
        if distanceSquared ≥ bd then
          findNearestAux origin direction rest (index + 1)
            (some (bi, bs, bh, bd))
        else
          findNearestAux origin direction rest (index + 1)
            (some (index, shape, hit, distanceSquared))

/-- The result of the nearest-hit search in `cast`:
`none` exactly when `shapeIndex` stays `-1`. -/
noncomputable def findNearest (shapes : List Sphere)
    (origin direction : Vec3) : Option (ℕ × Sphere × Hit) :=
  (findNearestAux origin direction shapes 0 none).map
    (fun r => (r.1, r.2.1, r.2.2.1))

/-- Index returned by the nearest-hit search is in range. -/
theorem findNearestAux_index_lt (origin direction : Vec3) :
    ∀ (rest : List Sphere) (k : ℕ) (best : Option (ℕ × Sphere × Hit × ℝ)),
      (∀ i s h d, best = some (i, s, h, d) → i < k) →
      ∀ i s h d, findNearestAux origin direction rest k best = some (i, s, h, d) →
        i < k + rest.length := by
  intro rest
  induction rest with
  | nil =>
    intro k best hbest i s h d hres
    simpa using hbest i s h d (by simpa [findNearestAux] using hres)
  | cons shape rest ih =>
    intro k best hbest i s h d hres
    have succ_bound : ∀ i s h d (b : Option (ℕ × Sphere × Hit × ℝ)),
        (∀ i s h d, b = some (i, s, h, d) → i < k + 1) →
        findNearestAux origin direction rest (k + 1) b = some (i, s, h, d) →
        i < k + (shape :: rest).length := by
      intro i s h d b hb hr
      have := ih (k + 1) b hb i s h d hr
      simpa [Nat.add_comm, Nat.add_assoc, Nat.add_left_comm] using this
    cases hint : shape.intersects origin direction with
    | none =>
      simp only [findNearestAux, hint] at hres
      exact succ_bound i s h d best
        (fun i s h d hb => Nat.lt_succ_of_lt (hbest i s h d hb)) hres
    | some hit =>
      cases best with
      | none =>
        simp only [findNearestAux, hint] at hres
        refine succ_bound i s h d _ ?_ hres
        intro i s h d hb
        injection hb with hb
        injection hb with h1 h2
        subst h1
        exact Nat.lt_succ_self k
      | some b =>
        obtain ⟨bi, bs, bh, bd⟩ := b
        simp only [findNearestAux, hint] at hres
        by_cases hge : lengthSquared (hit.point - origin) ≥ bd
        · rw [if_pos hge] at hres
          refine succ_bound i s h d _ ?_ hres
          intro i s h d hb
          injection hb with hb
          injection hb with h1 h2
          subst h1
          exact Nat.lt_succ_of_lt (hbest bi bs bh bd rfl)
        · rw [if_neg hge] at hres
          refine succ_bound i s h d _ ?_ hres
          intro i s h d hb
          injection hb with hb
          injection hb with h1 h2
          subst h1
          exact Nat.lt_succ_self k

/-- The index of the surface selected by `cast`'s nearest-hit search is a
valid index into the shape list. -/
theorem findNearest_index_lt {shapes : List Sphere} {origin direction : Vec3}
    {i : ℕ} {s : Sphere} {h : Hit}
    (hres : findNearest shapes origin direction = some (i, s, h)) :
    i < shapes.length := by
  unfold findNearest at hres
  cases haux : findNearestAux origin direction shapes 0 none with
  | none => simp [haux] at hres
  | some r =>
    obtain ⟨ri, rs, rh, rd⟩ := r
    rw [haux] at hres
    simp only [Option.map_some'] at hres
    injection hres with hres
    injection hres with h1 h2
    subst h1
    have := findNearestAux_index_lt origin direction shapes 0 none
      (by simp) ri rs rh rd haux
    simpa using this

/-- The shadow test of `cast`'s light loop: whether some shape of
`otherShapes` reports an (existence-only) intersection for the ray from
the hit point in direction `normalize(intersectionOrigin - light.center)`. -/
noncomputable def isBlocked (otherShapes : List Sphere) (light : Bulb)
    (intersectionOrigin : Vec3) : Bool :=
  otherShapes.any fun otherShape =>
    (otherShape.intersects intersectionOrigin
      ((intersectionOrigin - light.center).normalized)).isSome

/-- One light's addition to `colorMask` in `cast`'s loop: zero when the
light is occluded or its power is not positive, else `power * color`. -/
noncomputable def lightTerm (otherShapes : List Sphere) (light : Bulb)
    (intersectionOrigin normalDirection : Vec3) : Color :=
  if isBlocked otherShapes light intersectionOrigin then 0
  else
    let power := light.power intersectionOrigin normalDirection
    if power ≤ 0 then 0 else power • light.color

/-- The `colorMask` accumulation loop of `cast`: start from
`colorOnFullShade` and add each light's term in order. -/
noncomputable def colorMaskOf (otherShapes : List Sphere) (lights : List Bulb)
    (intersectionOrigin normalDirection colorOnFullShade : Vec3) : Color :=
  lights.foldl
    (fun mask light =>
      mask + lightTerm otherShapes light intersectionOrigin normalDirection)
    colorOnFullShade

/-- `cast`: nearest-hit search, optional mirror recursion on the
other-shapes set, then the shadow-tested light mask, multiplied
componentwise into the (possibly blended) surface color. -/
noncomputable def cast (shapes : List Sphere) (lights : List Bulb)
    (origin direction colorOnMiss colorOnFullShade : Vec3) : Color :=
  match hfn : findNearest shapes origin direction with
  | none => colorOnMiss
  | some (shapeIndex, shape, hit) =>
    let otherShapes := allBut shapes shapeIndex
    let colorSelf :=
      if shape.mirror > 0 then
        let colorMirrored := cast otherShapes lights hit.point hit.reflection
          colorOnMiss colorOnFullShade
        (1 - shape.mirror) • shape.color + shape.mirror • colorMirrored
      else shape.color
    colorSelf *
      colorMaskOf otherShapes lights hit.point hit.normal colorOnFullShade
termination_by shapes.length
decreasing_by
  have hlt := findNearest_index_lt hfn
  simp only [allBut, List.length_eraseIdx, if_pos hlt]
  omega

/-- Fuel-bounded variant of `cast`, used to state the recursion-depth
bound: with fuel `0` every call answers `colorOnMiss`; with fuel `n + 1`
one level of `cast` runs and any mirror recursion gets fuel `n`. -/
noncomputable def castFuel :
    ℕ → List Sphere → List Bulb → Vec3 → Vec3 → Vec3 → Vec3 → Color
  | 0, _, _, _, _, colorOnMiss, _ => colorOnMiss
  | fuel + 1, shapes, lights, origin, direction, colorOnMiss,
      colorOnFullShade =>
    match findNearest shapes origin direction with
    | none => colorOnMiss
    | some (shapeIndex, shape, hit) =>
      let otherShapes := allBut shapes shapeIndex
      let colorSelf :=
        if shape.mirror > 0 then
          let colorMirrored := castFuel fuel otherShapes lights hit.point
            hit.reflection colorOnMiss colorOnFullShade
          (1 - shape.mirror) • shape.color + shape.mirror • colorMirrored
        else shape.color
      colorSelf *
        colorMaskOf otherShapes lights hit.point hit.normal colorOnFullShade

/-- Unfolding `cast` when the nearest-hit search misses. -/
theorem cast_of_none {shapes : List Sphere} {lights : List Bulb}
    {origin direction colorOnMiss colorOnFullShade : Vec3}
    (h : findNearest shapes origin direction = none) :
    cast shapes lights origin direction colorOnMiss colorOnFullShade =
      colorOnMiss := by
  rw [Yart.cast.eq_def]
  split
  · rfl
  · rename_i heq
    rw [h] at heq
    cases heq

/-- Unfolding `cast` when the nearest-hit search selects
`(shapeIndex, shape, hit)`. -/
theorem cast_of_some {shapes : List Sphere} {lights : List Bulb}
    {origin direction colorOnMiss colorOnFullShade : Vec3}
    {shapeIndex : ℕ} {shape : Sphere} {hit : Hit}
    (h : findNearest shapes origin direction =
      some (shapeIndex, shape, hit)) :
    cast shapes lights origin direction colorOnMiss colorOnFullShade =
      (if shape.mirror > 0 then
          (1 - shape.mirror) • shape.color + shape.mirror •
            cast (allBut shapes shapeIndex) lights hit.point hit.reflection
              colorOnMiss colorOnFullShade
        else shape.color) *
        colorMaskOf (allBut shapes shapeIndex) lights hit.point hit.normal
          colorOnFullShade := by
  rw [Yart.cast.eq_def]
  split
  · rename_i heq
    rw [h] at heq
    cases heq
  · rename_i i' s' hit' heq
    rw [h] at heq
    injection heq with heq
    injection heq with e1 heq
    injection heq with e2 e3
    subst e1
    subst e2
    subst e3
    rfl

/-- The quadratic coefficient `b = dot(direction, m)` of
`Sphere::intersects`, with `m = origin - center`. -/
def coefB (s : Sphere) (origin direction : Vec3) : ℝ :=
  dot direction (origin - s.center)

/-- The quadratic coefficient `c = dot(m, m) - radius * radius` of
`Sphere::intersects`, with `m = origin - center`. -/
def coefC (s : Sphere) (origin : Vec3) : ℝ :=
  dot (origin - s.center) (origin - s.center) - s.radius * s.radius

/-- The clamped hit parameter `t = max(0, -b - sqrt(b*b - c))` of
`Sphere::intersects`. -/
noncomputable def hitT (s : Sphere) (origin direction : Vec3) : ℝ :=
  max 0 (-(coefB s origin direction) -
    Real.sqrt (coefB s origin direction * coefB s origin direction -
      coefC s origin))

/-- `Sphere::intersects` written with the named coefficients. -/
theorem intersects_eq (s : Sphere) (origin direction : Vec3) :
    s.intersects origin direction =
      if coefC s origin > 0 ∧ coefB s origin direction > 0 then none
      else if coefB s origin direction * coefB s origin direction -
          coefC s origin < 0 then none
      else
        some ⟨origin + hitT s origin direction • direction,
          (origin + hitT s origin direction • direction - s.center).normalized,
          reflect direction
            ((origin + hitT s origin direction • direction -
              s.center).normalized)⟩ := rfl

/-- C1: for every sphere with positive radius and every ray, `intersects`
follows the quadratic algorithm: with `m = origin - center`,
`b = dot(direction, m)`, `c = dot(m, m) - radius^2`, it reports no
intersection when `c > 0` and `b > 0`, no intersection when
`b^2 - c < 0`, and otherwise a hit with
`t = max(0, -b - sqrt(b^2 - c))` and hit point `origin + direction * t`. -/
theorem intersects_follows_quadratic (s : Sphere) (origin direction : Vec3)
    (hr : 0 < s.radius) :
    (coefC s origin > 0 → coefB s origin direction > 0 →
      s.intersects origin direction = none) ∧
    (coefB s origin direction * coefB s origin direction -
        coefC s origin < 0 →
      s.intersects origin direction = none) ∧
    (¬(coefC s origin > 0 ∧ coefB s origin direction > 0) →
      0 ≤ coefB s origin direction * coefB s origin direction -
        coefC s origin →
      s.intersects origin direction =
        some ⟨origin + hitT s origin direction • direction,
          (origin + hitT s origin direction • direction - s.center).normalized,
          reflect direction
            ((origin + hitT s origin direction • direction -
              s.center).normalized)⟩) := by
  refine ⟨?_, ?_, ?_⟩
  · intro hc hb
    rw [intersects_eq, if_pos ⟨hc, hb⟩]
  · intro hdiscr
    rw [intersects_eq]
    by_cases h1 : coefC s origin > 0 ∧ coefB s origin direction > 0
    · rw [if_pos h1]
    · rw [if_neg h1, if_pos hdiscr]
  · intro h1 hdiscr
    rw [intersects_eq, if_neg h1, if_neg (not_lt.mpr hdiscr)]

/-- C1 witness: the unit sphere at the origin, ray from `(3,0,0)` in
direction `(-1,0,0)`. -/
theorem intersects_follows_quadratic_witness :
    0 < (Sphere.mk ⟨0, 0, 0⟩ 1 ⟨1, 0, 0⟩ 0).radius ∧
    ((coefC (Sphere.mk ⟨0, 0, 0⟩ 1 ⟨1, 0, 0⟩ 0) ⟨3, 0, 0⟩ > 0 →
      coefB (Sphere.mk ⟨0, 0, 0⟩ 1 ⟨1, 0, 0⟩ 0) ⟨3, 0, 0⟩ ⟨-1, 0, 0⟩ > 0 →
      (Sphere.mk ⟨0, 0, 0⟩ 1 ⟨1, 0, 0⟩ 0).intersects ⟨3, 0, 0⟩ ⟨-1, 0, 0⟩ =
        none) ∧
    (coefB (Sphere.mk ⟨0, 0, 0⟩ 1 ⟨1, 0, 0⟩ 0) ⟨3, 0, 0⟩ ⟨-1, 0, 0⟩ *
        coefB (Sphere.mk ⟨0, 0, 0⟩ 1 ⟨1, 0, 0⟩ 0) ⟨3, 0, 0⟩ ⟨-1, 0, 0⟩ -
        coefC (Sphere.mk ⟨0, 0, 0⟩ 1 ⟨1, 0, 0⟩ 0) ⟨3, 0, 0⟩ < 0 →
      (Sphere.mk ⟨0, 0, 0⟩ 1 ⟨1, 0, 0⟩ 0).intersects ⟨3, 0, 0⟩ ⟨-1, 0, 0⟩ =
        none) ∧
    (¬(coefC (Sphere.mk ⟨0, 0, 0⟩ 1 ⟨1, 0, 0⟩ 0) ⟨3, 0, 0⟩ > 0 ∧
        coefB (Sphere.mk ⟨0, 0, 0⟩ 1 ⟨1, 0, 0⟩ 0) ⟨3, 0, 0⟩ ⟨-1, 0, 0⟩ > 0) →
      0 ≤ coefB (Sphere.mk ⟨0, 0, 0⟩ 1 ⟨1, 0, 0⟩ 0) ⟨3, 0, 0⟩ ⟨-1, 0, 0⟩ *
          coefB (Sphere.mk ⟨0, 0, 0⟩ 1 ⟨1, 0, 0⟩ 0) ⟨3, 0, 0⟩ ⟨-1, 0, 0⟩ -
          coefC (Sphere.mk ⟨0, 0, 0⟩ 1 ⟨1, 0, 0⟩ 0) ⟨3, 0, 0⟩ →
      (Sphere.mk ⟨0, 0, 0⟩ 1 ⟨1, 0, 0⟩ 0).intersects ⟨3, 0, 0⟩ ⟨-1, 0, 0⟩ =
        some ⟨⟨3, 0, 0⟩ +
            hitT (Sphere.mk ⟨0, 0, 0⟩ 1 ⟨1, 0, 0⟩ 0) ⟨3, 0, 0⟩ ⟨-1, 0, 0⟩ •
              ⟨-1, 0, 0⟩,
          (⟨3, 0, 0⟩ +
            hitT (Sphere.mk ⟨0, 0, 0⟩ 1 ⟨1, 0, 0⟩ 0) ⟨3, 0, 0⟩ ⟨-1, 0, 0⟩ •
              ⟨-1, 0, 0⟩ - (Sphere.mk ⟨0, 0, 0⟩ 1 ⟨1, 0, 0⟩ 0).center).normalized,
          reflect ⟨-1, 0, 0⟩
            ((⟨3, 0, 0⟩ +
              hitT (Sphere.mk ⟨0, 0, 0⟩ 1 ⟨1, 0, 0⟩ 0) ⟨3, 0, 0⟩ ⟨-1, 0, 0⟩ •
                ⟨-1, 0, 0⟩ -
              (Sphere.mk ⟨0, 0, 0⟩ 1 ⟨1, 0, 0⟩ 0).center).normalized)⟩)) :=
  ⟨by norm_num,
    intersects_follows_quadratic (Sphere.mk ⟨0, 0, 0⟩ 1 ⟨1, 0, 0⟩ 0)
      ⟨3, 0, 0⟩ ⟨-1, 0, 0⟩ (by norm_num)⟩

/-- C10: a ray whose origin lies inside or on the sphere (`c <= 0`)
always reports a hit: the early rejection needs `c > 0` and the
discriminant `b^2 - c >= b^2` is never negative. -/
theorem intersects_isSome_of_inside (s : Sphere) (origin direction : Vec3)
    (hc : coefC s origin ≤ 0) :
    (s.intersects origin direction).isSome := by
  rw [intersects_eq]
  split_ifs with h1 h2
  · exact absurd h1.1 (not_lt.mpr hc)
  · nlinarith [mul_self_nonneg (coefB s origin direction)]
  · rfl

/-- C10 witness: the unit sphere at the origin and a ray from its
center. -/
theorem intersects_isSome_of_inside_witness :
    coefC (Sphere.mk ⟨0, 0, 0⟩ 1 ⟨1, 0, 0⟩ 0) ⟨0, 0, 0⟩ ≤ 0 ∧
    ((Sphere.mk ⟨0, 0, 0⟩ 1 ⟨1, 0, 0⟩ 0).intersects ⟨0, 0, 0⟩
      ⟨1, 0, 0⟩).isSome :=
  ⟨by norm_num [coefC, Vec3.dot, Vec3.sub_def],
    intersects_isSome_of_inside (Sphere.mk ⟨0, 0, 0⟩ 1 ⟨1, 0, 0⟩ 0)
      ⟨0, 0, 0⟩ ⟨1, 0, 0⟩ (by norm_num [coefC, Vec3.dot, Vec3.sub_def])⟩

/-- C2 (amended): for every sphere with positive radius and every
non-zero direction, a ray originating at the sphere's center reports a
hit at the center itself — `t` clamps to `0`, so the hit point is the ray
origin, the normal is the zero vector (normalizing the zero offset), and
the reflected direction is the unchanged input direction. -/
theorem intersects_from_center (s : Sphere) (direction : Vec3)
    (hr : 0 < s.radius) (hd : direction ≠ 0) :
    s.intersects s.center direction = some ⟨s.center, 0, direction⟩ := by
  have hm : s.center - s.center = (0 : Vec3) := by
    simp [Vec3.sub_def, Vec3.zero_def]
  have hb : coefB s s.center direction = 0 := by
    simp [coefB, hm, Vec3.dot, Vec3.zero_x, Vec3.zero_y, Vec3.zero_z]
  have hc : coefC s s.center = -(s.radius * s.radius) := by
    simp [coefC, hm, Vec3.dot, Vec3.zero_x, Vec3.zero_y, Vec3.zero_z]
  have hdiscr : coefB s s.center direction * coefB s s.center direction -
      coefC s s.center = s.radius * s.radius := by
    rw [hb, hc]; ring
  have ht : hitT s s.center direction = 0 := by
    unfold hitT
    rw [hdiscr, hb, Real.sqrt_mul_self hr.le, neg_zero, zero_sub]
    exact max_eq_left (neg_nonpos.mpr hr.le)
  have hrej : ¬(coefC s s.center > 0 ∧
      coefB s s.center direction > 0) := by
    rw [hc]
    rintro ⟨h1, -⟩
    nlinarith
  have hpos : ¬(coefB s s.center direction * coefB s s.center direction -
      coefC s s.center < 0) := by
    rw [hdiscr]
    nlinarith
  rw [intersects_eq, if_neg hrej, if_neg hpos, ht]
  have hp : s.center + (0 : ℝ) • direction = s.center := by
    simp [Vec3.smul_def, Vec3.add_def]
  rw [hp, hm]
  have hn : (0 : Vec3).normalized = 0 := by
    simp [Vec3.normalized, Vec3.lengthSquared, Vec3.dot, Vec3.zero_x,
      Vec3.zero_y, Vec3.zero_z]
  rw [hn]
  have hrefl : reflect direction 0 = direction := by
    simp [reflect, Vec3.dot, Vec3.zero_x, Vec3.zero_y, Vec3.zero_z,
      Vec3.smul_def, Vec3.sub_def]
  rw [hrefl]

/-- C2 witness: the unit sphere at the origin with a ray from its
center in direction `(1,0,0)`. -/
theorem intersects_from_center_witness :
    0 < (Sphere.mk ⟨0, 0, 0⟩ 1 ⟨1, 0, 0⟩ 0).radius ∧
    (⟨1, 0, 0⟩ : Vec3) ≠ 0 ∧
    (Sphere.mk ⟨0, 0, 0⟩ 1 ⟨1, 0, 0⟩ 0).intersects
        (Sphere.mk ⟨0, 0, 0⟩ 1 ⟨1, 0, 0⟩ 0).center ⟨1, 0, 0⟩ =
      some ⟨(Sphere.mk ⟨0, 0, 0⟩ 1 ⟨1, 0, 0⟩ 0).center, 0, ⟨1, 0, 0⟩⟩ :=
  ⟨by norm_num,
    by
      intro hcontra
      have hx := congrArg Vec3.x hcontra
      simp [Vec3.zero_x] at hx,
    intersects_from_center (Sphere.mk ⟨0, 0, 0⟩ 1 ⟨1, 0, 0⟩ 0) ⟨1, 0, 0⟩
      (by norm_num)
      (by
        intro hcontra
        have hx := congrArg Vec3.x hcontra
        simp [Vec3.zero_x] at hx)⟩

/-- C2 counterexample: for the unit sphere at the origin and the ray from
its center in direction `(1,0,0)`, `intersects` reports the hit point at
the center — squared distance `0` from the ray origin, not
`radius = 1` — and a zero normal rather than the normalized direction. -/
theorem intersects_from_center_cex :
    (Sphere.mk ⟨0, 0, 0⟩ 1 ⟨1, 0, 0⟩ 0).intersects ⟨0, 0, 0⟩ ⟨1, 0, 0⟩ =
      some ⟨⟨0, 0, 0⟩, ⟨0, 0, 0⟩, ⟨1, 0, 0⟩⟩ ∧
    lengthSquared ((⟨0, 0, 0⟩ : Vec3) - ⟨0, 0, 0⟩) = 0 ∧
    (Sphere.mk ⟨0, 0, 0⟩ 1 ⟨1, 0, 0⟩ 0).radius = 1 ∧
    (⟨0, 0, 0⟩ : Vec3) ≠ (⟨1, 0, 0⟩ : Vec3).normalized := by
  refine ⟨?_, ?_, rfl, ?_⟩
  · rw [intersects_eq]
    norm_num [coefB, coefC, Vec3.dot, Vec3.sub_def, hitT, Vec3.normalized,
      Vec3.lengthSquared, Vec3.smul_def, Vec3.add_def, Vec3.mk_zero, reflect,
      Vec3.zero_x, Vec3.zero_y, Vec3.zero_z, Real.sqrt_one]
  · norm_num [Vec3.lengthSquared, Vec3.dot, Vec3.sub_def]
  · have hnorm : (⟨1, 0, 0⟩ : Vec3).normalized = ⟨1, 0, 0⟩ := by
      norm_num [Vec3.normalized, Vec3.lengthSquared, Vec3.dot, Vec3.smul_def,
        Real.sqrt_one]
    rw [hnorm]
    norm_num [Vec3.mk.injEq]

/-- The hit record returned by `Sphere::intersects` stores the mirror
reflection of the ray direction about the stored normal. -/
theorem intersects_reflection_eq {s : Sphere} {origin direction : Vec3}
    {h : Hit} (hres : s.intersects origin direction = some h) :
    h.reflection = reflect direction h.normal := by
  rw [intersects_eq] at hres
  split_ifs at hres
  injection hres with he
  rw [← he]

/-- The sign-flip identity of the reflection formula for a unit normal. -/
theorem dot_reflect_eq_neg (d n : Vec3) (hn : lengthSquared n = 1) :
    dot (reflect d n) n = -(dot d n) := by
  simp only [reflect, lengthSquared, dot, Vec3.sub_def, Vec3.smul_def]
    at hn ⊢
  linear_combination (-2 * (d.x * n.x + d.y * n.y + d.z * n.z)) * hn

/-- The reflection formula preserves the squared length of the incoming
direction for a unit normal. -/
theorem lengthSquared_reflect (d n : Vec3) (hn : lengthSquared n = 1) :
    lengthSquared (reflect d n) = lengthSquared d := by
  simp only [reflect, lengthSquared, dot, Vec3.sub_def, Vec3.smul_def]
    at hn ⊢
  linear_combination (4 * (d.x * n.x + d.y * n.y + d.z * n.z) ^ 2) * hn

/-- C8: for every hit with a unit-length normal, the reflected direction
computed by `intersects` satisfies
`dot(reflectedDirection, normal) = -dot(direction, normal)` and keeps the
squared magnitude of the input direction. -/
theorem reflection_sign_flip (s : Sphere) (origin direction : Vec3)
    (h : Hit) (hres : s.intersects origin direction = some h)
    (hn : lengthSquared h.normal = 1) :
    dot h.reflection h.normal = -(dot direction h.normal) ∧
    lengthSquared h.reflection = lengthSquared direction := by
  rw [intersects_reflection_eq hres]
  exact ⟨dot_reflect_eq_neg direction h.normal hn,
    lengthSquared_reflect direction h.normal hn⟩

/-- C8 witness: the unit sphere at the origin hit by the ray from
`(3,0,0)` in direction `(-1,0,0)`. -/
theorem reflection_sign_flip_witness :
    (Sphere.mk ⟨0, 0, 0⟩ 1 ⟨1, 0, 0⟩ 0).intersects ⟨3, 0, 0⟩ ⟨-1, 0, 0⟩ =
      some ⟨⟨1, 0, 0⟩, ⟨1, 0, 0⟩, ⟨1, 0, 0⟩⟩ ∧
    lengthSquared (Hit.mk ⟨1, 0, 0⟩ ⟨1, 0, 0⟩ ⟨1, 0, 0⟩).normal = 1 ∧
    (dot (Hit.mk ⟨1, 0, 0⟩ ⟨1, 0, 0⟩ ⟨1, 0, 0⟩).reflection
        (Hit.mk ⟨1, 0, 0⟩ ⟨1, 0, 0⟩ ⟨1, 0, 0⟩).normal =
      -(dot ⟨-1, 0, 0⟩ (Hit.mk ⟨1, 0, 0⟩ ⟨1, 0, 0⟩ ⟨1, 0, 0⟩).normal) ∧
    lengthSquared (Hit.mk ⟨1, 0, 0⟩ ⟨1, 0, 0⟩ ⟨1, 0, 0⟩).reflection =
      lengthSquared (⟨-1, 0, 0⟩ : Vec3)) := by
  have heval : (Sphere.mk ⟨0, 0, 0⟩ 1 ⟨1, 0, 0⟩ 0).intersects ⟨3, 0, 0⟩
      ⟨-1, 0, 0⟩ = some ⟨⟨1, 0, 0⟩, ⟨1, 0, 0⟩, ⟨1, 0, 0⟩⟩ := by
    rw [intersects_eq]
    norm_num [coefB, coefC, Vec3.dot, Vec3.sub_def, hitT, Vec3.normalized,
      Vec3.lengthSquared, Vec3.smul_def, Vec3.add_def, Vec3.mk_zero, reflect,
      Vec3.zero_x, Vec3.zero_y, Vec3.zero_z, Real.sqrt_one]
  have hn : lengthSquared (Hit.mk ⟨1, 0, 0⟩ ⟨1, 0, 0⟩ ⟨1, 0, 0⟩).normal = 1 := by
    norm_num [Vec3.lengthSquared, Vec3.dot]
  exact ⟨heval, hn,
    reflection_sign_flip (Sphere.mk ⟨0, 0, 0⟩ 1 ⟨1, 0, 0⟩ 0) ⟨3, 0, 0⟩
      ⟨-1, 0, 0⟩ (Hit.mk ⟨1, 0, 0⟩ ⟨1, 0, 0⟩ ⟨1, 0, 0⟩) heval hn⟩

/-- The angle `acos(dot(normalize(point - center), normal))` computed by
`Bulb::power`. -/
noncomputable def bulbAngle (l : Bulb) (origin normalDirection : Vec3) : ℝ :=
  Real.arccos (dot ((origin - l.center).normalized) normalDirection)

/-- `Bulb::power` written with `bulbAngle`; the absolute value drops
because `acos` lands in `[0, pi]`. -/
theorem power_eq_angle (l : Bulb) (p n : Vec3) :
    l.power p n = if bulbAngle l p n > π / 2 then 0
      else 1 - bulbAngle l p n / (π / 2) := by
  simp only [Bulb.power, bulbAngle]
  rw [abs_of_nonneg (Real.arccos_nonneg _)]

/-- C6: for every bulb and every point/normal pair with a unit normal,
`power` returns `0` when the angle `acos(dot(v1, v2))` exceeds 90 degrees
and `1 - |angle| / 90deg` otherwise, and the result always lies in
`[0, 1]`. -/
theorem power_formula (l : Bulb) (point normalDirection : Vec3)
    (hn : lengthSquared normalDirection = 1) :
    (|Real.arccos (dot ((point - l.center).normalized) normalDirection)| >
        π / 2 → l.power point normalDirection = 0) ∧
    (|Real.arccos (dot ((point - l.center).normalized) normalDirection)| ≤
        π / 2 → l.power point normalDirection =
          1 - |Real.arccos (dot ((point - l.center).normalized)
            normalDirection)| / (π / 2)) ∧
    0 ≤ l.power point normalDirection ∧ l.power point normalDirection ≤ 1 := by
  have h0 : 0 ≤ Real.arccos (dot ((point - l.center).normalized)
      normalDirection) := Real.arccos_nonneg _
  have habs : |Real.arccos (dot ((point - l.center).normalized)
      normalDirection)| = Real.arccos (dot ((point - l.center).normalized)
      normalDirection) := abs_of_nonneg h0
  have hpi2 : (0 : ℝ) < π / 2 := by positivity
  rw [power_eq_angle, habs]
  unfold bulbAngle
  by_cases hgt : Real.arccos (dot ((point - l.center).normalized)
      normalDirection) > π / 2
  · rw [if_pos hgt]
    exact ⟨fun _ => rfl, fun hle => absurd hgt (not_lt.mpr hle),
      le_refl 0, zero_le_one⟩
  · rw [if_neg hgt]
    push_neg at hgt
    have hdiv0 : 0 ≤ Real.arccos (dot ((point - l.center).normalized)
        normalDirection) / (π / 2) := div_nonneg h0 hpi2.le
    have hdiv1 : Real.arccos (dot ((point - l.center).normalized)
        normalDirection) / (π / 2) ≤ 1 := (div_le_one hpi2).mpr hgt
    exact ⟨fun hc => absurd hc (not_lt.mpr hgt), fun _ => rfl,
      by linarith, by linarith⟩

/-- C6 witness: the bulb at the origin, point `(1,0,0)`, unit normal
`(1,0,0)`. -/
theorem power_formula_witness :
    lengthSquared (⟨1, 0, 0⟩ : Vec3) = 1 ∧
    ((|Real.arccos (dot (((⟨1, 0, 0⟩ : Vec3) -
          (Bulb.mk ⟨0, 0, 0⟩ ⟨1, 1, 1⟩).center).normalized) ⟨1, 0, 0⟩)| >
        π / 2 →
      (Bulb.mk ⟨0, 0, 0⟩ ⟨1, 1, 1⟩).power ⟨1, 0, 0⟩ ⟨1, 0, 0⟩ = 0) ∧
    (|Real.arccos (dot (((⟨1, 0, 0⟩ : Vec3) -
          (Bulb.mk ⟨0, 0, 0⟩ ⟨1, 1, 1⟩).center).normalized) ⟨1, 0, 0⟩)| ≤
        π / 2 →
      (Bulb.mk ⟨0, 0, 0⟩ ⟨1, 1, 1⟩).power ⟨1, 0, 0⟩ ⟨1, 0, 0⟩ =
        1 - |Real.arccos (dot (((⟨1, 0, 0⟩ : Vec3) -
          (Bulb.mk ⟨0, 0, 0⟩ ⟨1, 1, 1⟩).center).normalized) ⟨1, 0, 0⟩)| /
          (π / 2)) ∧
    0 ≤ (Bulb.mk ⟨0, 0, 0⟩ ⟨1, 1, 1⟩).power ⟨1, 0, 0⟩ ⟨1, 0, 0⟩ ∧
    (Bulb.mk ⟨0, 0, 0⟩ ⟨1, 1, 1⟩).power ⟨1, 0, 0⟩ ⟨1, 0, 0⟩ ≤ 1) :=
  ⟨by norm_num [Vec3.lengthSquared, Vec3.dot],
    power_formula (Bulb.mk ⟨0, 0, 0⟩ ⟨1, 1, 1⟩) ⟨1, 0, 0⟩ ⟨1, 0, 0⟩
      (by norm_num [Vec3.lengthSquared, Vec3.dot])⟩

/-- C7: `Bulb::power` is non-increasing in the angle computed from the
bulb-to-point direction and the surface normal, and is exactly `0`
whenever that angle is at least 90 degrees. -/
theorem power_antitone :
    (∀ (l : Bulb) (p₁ n₁ p₂ n₂ : Vec3),
      bulbAngle l p₁ n₁ ≤ bulbAngle l p₂ n₂ →
      l.power p₂ n₂ ≤ l.power p₁ n₁) ∧
    (∀ (l : Bulb) (p n : Vec3), π / 2 ≤ bulbAngle l p n →
      l.power p n = 0) := by
  have hpi2 : (0 : ℝ) < π / 2 := by positivity
  constructor
  · intro l p₁ n₁ p₂ n₂ hle
    rw [power_eq_angle, power_eq_angle]
    have h1 : 0 ≤ bulbAngle l p₁ n₁ := Real.arccos_nonneg _
    by_cases hgt2 : bulbAngle l p₂ n₂ > π / 2
    · rw [if_pos hgt2]
      by_cases hgt1 : bulbAngle l p₁ n₁ > π / 2
      · rw [if_pos hgt1]
      · rw [if_neg hgt1]
        push_neg at hgt1
        have : bulbAngle l p₁ n₁ / (π / 2) ≤ 1 := (div_le_one hpi2).mpr hgt1
        linarith
    · rw [if_neg hgt2]
      push_neg at hgt2
      have hgt1 : ¬ bulbAngle l p₁ n₁ > π / 2 :=
        not_lt.mpr (le_trans hle hgt2)
      rw [if_neg hgt1]
      have hdiv : bulbAngle l p₁ n₁ / (π / 2) ≤ bulbAngle l p₂ n₂ / (π / 2) :=
        div_le_div_of_nonneg_right hle hpi2.le
      linarith
  · intro l p n hge
    rw [power_eq_angle]
    rcases eq_or_lt_of_le hge with heq | hlt
    · rw [if_neg (by rw [← heq]; exact lt_irrefl _), ← heq,
        div_self (ne_of_gt hpi2), sub_self]
    · rw [if_pos hlt]

/-- C7 witness: equal angles for the bulb at the origin with point and
normal `(1,0,0)`, and the antipodal normal `(-1,0,0)` giving the
180-degree angle. -/
theorem power_antitone_witness :
    (bulbAngle (Bulb.mk ⟨0, 0, 0⟩ ⟨1, 1, 1⟩) ⟨1, 0, 0⟩ ⟨1, 0, 0⟩ ≤
        bulbAngle (Bulb.mk ⟨0, 0, 0⟩ ⟨1, 1, 1⟩) ⟨1, 0, 0⟩ ⟨1, 0, 0⟩ ∧
      (Bulb.mk ⟨0, 0, 0⟩ ⟨1, 1, 1⟩).power ⟨1, 0, 0⟩ ⟨1, 0, 0⟩ ≤
        (Bulb.mk ⟨0, 0, 0⟩ ⟨1, 1, 1⟩).power ⟨1, 0, 0⟩ ⟨1, 0, 0⟩) ∧
    (π / 2 ≤ bulbAngle (Bulb.mk ⟨0, 0, 0⟩ ⟨1, 1, 1⟩) ⟨1, 0, 0⟩ ⟨-1, 0, 0⟩ ∧
      (Bulb.mk ⟨0, 0, 0⟩ ⟨1, 1, 1⟩).power ⟨1, 0, 0⟩ ⟨-1, 0, 0⟩ = 0) := by
  have hang : bulbAngle (Bulb.mk ⟨0, 0, 0⟩ ⟨1, 1, 1⟩) ⟨1, 0, 0⟩
      ⟨-1, 0, 0⟩ = π := by
    unfold bulbAngle
    norm_num [Vec3.normalized, Vec3.sub_def, Vec3.lengthSquared, Vec3.dot,
      Vec3.smul_def, Real.sqrt_one, Real.arccos_neg_one]
  have hge : π / 2 ≤ bulbAngle (Bulb.mk ⟨0, 0, 0⟩ ⟨1, 1, 1⟩) ⟨1, 0, 0⟩
      ⟨-1, 0, 0⟩ := by
    rw [hang]
    linarith [Real.pi_pos]
  exact ⟨⟨le_refl _,
      power_antitone.1 (Bulb.mk ⟨0, 0, 0⟩ ⟨1, 1, 1⟩) ⟨1, 0, 0⟩ ⟨1, 0, 0⟩
        ⟨1, 0, 0⟩ ⟨1, 0, 0⟩ (le_refl _)⟩,
    ⟨hge, power_antitone.2 (Bulb.mk ⟨0, 0, 0⟩ ⟨1, 1, 1⟩) ⟨1, 0, 0⟩
      ⟨-1, 0, 0⟩ hge⟩⟩

theorem Vec3.add_zero (a : Vec3) : a + 0 = a := by
  simp [Vec3.add_def, Vec3.zero_def]

/-- The nearest-hit loop leaves the accumulator unchanged when no shape
intersects the ray. -/
theorem findNearestAux_all_none (origin direction : Vec3) :
    ∀ (rest : List Sphere) (k : ℕ) (best : Option (ℕ × Sphere × Hit × ℝ)),
      (∀ sh ∈ rest, sh.intersects origin direction = none) →
      findNearestAux origin direction rest k best = best := by
  intro rest
  induction rest with
  | nil =>
    intro k best _
    rfl
  | cons shape rest ih =>
    intro k best hall
    have hshape : shape.intersects origin direction = none :=
      hall shape (List.mem_cons_self _ _)
    simp only [findNearestAux, hshape]
    exact ih (k + 1) best (fun sh hsh => hall sh (List.mem_cons_of_mem _ hsh))

/-- The nearest-hit search misses when no shape intersects the ray. -/
theorem findNearest_of_all_none {shapes : List Sphere}
    {origin direction : Vec3}
    (hall : ∀ sh ∈ shapes, sh.intersects origin direction = none) :
    findNearest shapes origin direction = none := by
  unfold findNearest
  rw [findNearestAux_all_none origin direction shapes 0 none hall]
  rfl

/-- C5: `cast` on an empty surface set returns `colorOnMiss` unchanged
for every light set and ray, and more generally returns `colorOnMiss`
whenever no surface reports a hit; being a total function, it raises no
error on any input. -/
theorem cast_returns_miss :
    (∀ (lights : List Bulb)
        (origin direction colorOnMiss colorOnFullShade : Vec3),
      cast [] lights origin direction colorOnMiss colorOnFullShade =
        colorOnMiss) ∧
    (∀ (shapes : List Sphere) (lights : List Bulb)
        (origin direction colorOnMiss colorOnFullShade : Vec3),
      (∀ sh ∈ shapes, sh.intersects origin direction = none) →
      cast shapes lights origin direction colorOnMiss colorOnFullShade =
        colorOnMiss) := by
  constructor
  · intro lights origin direction cM cFS
    exact cast_of_none (findNearest_of_all_none (by simp))
  · intro shapes lights origin direction cM cFS hall
    exact cast_of_none (findNearest_of_all_none hall)

/-- C5 witness: the empty scene with one light. -/
theorem cast_returns_miss_witness :
    (∀ sh ∈ ([] : List Sphere),
      Sphere.intersects sh ⟨0, 0, 0⟩ ⟨1, 0, 0⟩ = none) ∧
    cast [] [Bulb.mk ⟨5, 0, 0⟩ ⟨1, 1, 1⟩] ⟨0, 0, 0⟩ ⟨1, 0, 0⟩ ⟨0, 0, 1⟩
      ⟨1, 1, 1⟩ = ⟨0, 0, 1⟩ :=
  ⟨by simp,
    cast_returns_miss.2 [] [Bulb.mk ⟨5, 0, 0⟩ ⟨1, 1, 1⟩] ⟨0, 0, 0⟩ ⟨1, 0, 0⟩
      ⟨0, 0, 1⟩ ⟨1, 1, 1⟩ (by simp)⟩

/-- C3: each mirror recursion passes `allBut shapes shapeIndex`, a list
with exactly the hit surface removed, and `cast` agrees with its
fuel-bounded variant whenever the fuel exceeds the surface count — the
recursion depth is bounded by the number of surfaces. -/
theorem cast_terminates_depth_bound :
    (∀ (shapes : List Sphere) (index : ℕ), index < shapes.length →
      (allBut shapes index).length + 1 = shapes.length) ∧
    (∀ (n : ℕ) (shapes : List Sphere) (lights : List Bulb)
        (origin direction colorOnMiss colorOnFullShade : Vec3),
      shapes.length < n →
      castFuel n shapes lights origin direction colorOnMiss
          colorOnFullShade =
        cast shapes lights origin direction colorOnMiss colorOnFullShade)
    := by
  have hlen : ∀ (shapes : List Sphere) (index : ℕ),
      index < shapes.length →
      (allBut shapes index).length + 1 = shapes.length := by
    intro shapes index hidx
    simp only [allBut, List.length_eraseIdx, if_pos hidx]
    omega
  refine ⟨hlen, ?_⟩
  intro n
  induction n with
  | zero =>
    intro shapes lights o d cM cFS hlt
    omega
  | succ n ih =>
    intro shapes lights o d cM cFS hlt
    cases hfn : findNearest shapes o d with
    | none =>
      rw [cast_of_none hfn]
      simp only [castFuel, hfn]
    | some r =>
      obtain ⟨i, s, hit⟩ := r
      have hidx := findNearest_index_lt hfn
      have hrec_len : (allBut shapes i).length < n := by
        have := hlen shapes i hidx
        omega
      rw [cast_of_some hfn]
      simp only [castFuel, hfn]
      rw [ih (allBut shapes i) lights hit.point hit.reflection cM cFS
        hrec_len]

/-- C3 witness: a one-sphere list for the removal count and the empty
scene with fuel `1` for the depth bound. -/
theorem cast_terminates_depth_bound_witness :
    (0 < [Sphere.mk ⟨0, 0, 0⟩ 1 ⟨2, 3, 4⟩ 0].length ∧
      (allBut [Sphere.mk ⟨0, 0, 0⟩ 1 ⟨2, 3, 4⟩ 0] 0).length + 1 =
        [Sphere.mk ⟨0, 0, 0⟩ 1 ⟨2, 3, 4⟩ 0].length) ∧
    (([] : List Sphere).length < 1 ∧
      castFuel 1 [] [] ⟨0, 0, 0⟩ ⟨1, 0, 0⟩ ⟨0, 0, 1⟩ ⟨1, 1, 1⟩ =
        cast [] [] ⟨0, 0, 0⟩ ⟨1, 0, 0⟩ ⟨0, 0, 1⟩ ⟨1, 1, 1⟩) :=
  ⟨⟨by simp, cast_terminates_depth_bound.1 _ 0 (by simp)⟩,
    ⟨by simp,
      cast_terminates_depth_bound.2 1 [] [] ⟨0, 0, 0⟩ ⟨1, 0, 0⟩ ⟨0, 0, 1⟩
        ⟨1, 1, 1⟩ (by simp)⟩⟩

/-- C9: when the nearest hit surface has `mirrorFraction = 0` the base
color is the surface's own color unblended and zero recursion fuel
already computes `cast`; when `mirrorFraction > 0`, `cast` is the blend
with the recursive `cast` on the other-surfaces set. -/
theorem cast_mirror_recursion (shapes : List Sphere) (lights : List Bulb)
    (origin direction colorOnMiss colorOnFullShade : Vec3)
    (shapeIndex : ℕ) (shape : Sphere) (hit : Hit)
    (hfn : findNearest shapes origin direction =
      some (shapeIndex, shape, hit)) :
    (shape.mirror = 0 →
      cast shapes lights origin direction colorOnMiss colorOnFullShade =
        shape.color * colorMaskOf (allBut shapes shapeIndex) lights
          hit.point hit.normal colorOnFullShade ∧
      castFuel 1 shapes lights origin direction colorOnMiss
          colorOnFullShade =
        cast shapes lights origin direction colorOnMiss colorOnFullShade) ∧
    (shape.mirror > 0 →
      cast shapes lights origin direction colorOnMiss colorOnFullShade =
        ((1 - shape.mirror) • shape.color + shape.mirror •
            cast (allBut shapes shapeIndex) lights hit.point hit.reflection
              colorOnMiss colorOnFullShade) *
          colorMaskOf (allBut shapes shapeIndex) lights hit.point hit.normal
            colorOnFullShade) := by
  constructor
  · intro hm
    have hnot : ¬ shape.mirror > 0 := by
      rw [hm]
      exact lt_irrefl 0
    constructor
    · rw [cast_of_some hfn, if_neg hnot]
    · rw [cast_of_some hfn, if_neg hnot]
      simp only [castFuel, hfn]
      rw [if_neg hnot]
  · intro hm
    rw [cast_of_some hfn, if_pos hm]

/-- C9 witness: a single non-mirror sphere hit by the ray from `(3,0,0)`
towards the origin; the result is the surface color times the mask, with
no recursion consulted. -/
theorem cast_mirror_recursion_witness :
    cast [Sphere.mk ⟨0, 0, 0⟩ 1 ⟨2, 3, 4⟩ 0] [] ⟨3, 0, 0⟩ ⟨-1, 0, 0⟩
        ⟨0, 0, 1⟩ ⟨1, 1, 1⟩ =
      (⟨2, 3, 4⟩ : Color) *
        colorMaskOf (allBut [Sphere.mk ⟨0, 0, 0⟩ 1 ⟨2, 3, 4⟩ 0] 0) []
          ⟨1, 0, 0⟩ ⟨1, 0, 0⟩ ⟨1, 1, 1⟩ ∧
      castFuel 1 [Sphere.mk ⟨0, 0, 0⟩ 1 ⟨2, 3, 4⟩ 0] [] ⟨3, 0, 0⟩
          ⟨-1, 0, 0⟩ ⟨0, 0, 1⟩ ⟨1, 1, 1⟩ =
        cast [Sphere.mk ⟨0, 0, 0⟩ 1 ⟨2, 3, 4⟩ 0] [] ⟨3, 0, 0⟩ ⟨-1, 0, 0⟩
          ⟨0, 0, 1⟩ ⟨1, 1, 1⟩ := by
  have heval : (Sphere.mk ⟨0, 0, 0⟩ 1 ⟨2, 3, 4⟩ 0).intersects ⟨3, 0, 0⟩
      ⟨-1, 0, 0⟩ = some ⟨⟨1, 0, 0⟩, ⟨1, 0, 0⟩, ⟨1, 0, 0⟩⟩ := by
    rw [intersects_eq]
    norm_num [coefB, coefC, Vec3.dot, Vec3.sub_def, hitT, Vec3.normalized,
      Vec3.lengthSquared, Vec3.smul_def, Vec3.add_def, Vec3.mk_zero, reflect,
      Vec3.zero_x, Vec3.zero_y, Vec3.zero_z, Real.sqrt_one]
  have hfn : findNearest [Sphere.mk ⟨0, 0, 0⟩ 1 ⟨2, 3, 4⟩ 0] ⟨3, 0, 0⟩
      ⟨-1, 0, 0⟩ = some (0, Sphere.mk ⟨0, 0, 0⟩ 1 ⟨2, 3, 4⟩ 0,
        Hit.mk ⟨1, 0, 0⟩ ⟨1, 0, 0⟩ ⟨1, 0, 0⟩) := by
    unfold findNearest
    simp only [findNearestAux, heval]
    rfl
  exact (cast_mirror_recursion [Sphere.mk ⟨0, 0, 0⟩ 1 ⟨2, 3, 4⟩ 0] []
    ⟨3, 0, 0⟩ ⟨-1, 0, 0⟩ ⟨0, 0, 1⟩ ⟨1, 1, 1⟩ 0
    (Sphere.mk ⟨0, 0, 0⟩ 1 ⟨2, 3, 4⟩ 0)
    (Hit.mk ⟨1, 0, 0⟩ ⟨1, 0, 0⟩ ⟨1, 0, 0⟩) hfn).1 rfl

/-- C4: a light whose shadow ray (from the hit point in direction
`normalize(hitPoint - light.center)`) is intersected by any other surface
contributes nothing to the color mask; in particular, for a non-mirror
hit surface whose only light is occluded by another surface, `cast`
returns `surfaceColor * colorOnFullShade` componentwise. -/
theorem cast_shadow_occlusion :
    (∀ (otherShapes : List Sphere) (light : Bulb)
        (hitPoint normalDir : Vec3),
      isBlocked otherShapes light hitPoint = true →
      lightTerm otherShapes light hitPoint normalDir = 0) ∧
    (∀ (shapes : List Sphere) (light : Bulb)
        (origin direction colorOnMiss colorOnFullShade : Vec3)
        (shapeIndex : ℕ) (shape : Sphere) (hit : Hit),
      findNearest shapes origin direction =
        some (shapeIndex, shape, hit) →
      shape.mirror = 0 →
      isBlocked (allBut shapes shapeIndex) light hit.point = true →
      cast shapes [light] origin direction colorOnMiss colorOnFullShade =
        shape.color * colorOnFullShade) := by
  have hterm : ∀ (otherShapes : List Sphere) (light : Bulb)
      (hitPoint normalDir : Vec3),
      isBlocked otherShapes light hitPoint = true →
      lightTerm otherShapes light hitPoint normalDir = 0 := by
    intro otherShapes light hitPoint normalDir hb
    unfold lightTerm
    rw [if_pos hb]
  refine ⟨hterm, ?_⟩
  intro shapes light origin direction cM cFS i s hit hfn hm hb
  have hnot : ¬ s.mirror > 0 := by
    rw [hm]
    exact lt_irrefl 0
  rw [cast_of_some hfn, if_neg hnot]
  have hmask : colorMaskOf (allBut shapes i) [light] hit.point hit.normal
      cFS = cFS := by
    unfold colorMaskOf
    simp only [List.foldl_cons, List.foldl_nil]
    rw [hterm _ _ _ _ hb, Vec3.add_zero]
  rw [hmask]

/-- C4 witness: two unit spheres on the x-axis; the ray from `(3,0,0)`
hits the first at `(1,0,0)`, and the light at `(5,0,0)` is occluded
because its shadow ray (direction `(-1,0,0)`) hits the second sphere. -/
theorem cast_shadow_occlusion_witness :
    cast [Sphere.mk ⟨0, 0, 0⟩ 1 ⟨2, 3, 4⟩ 0,
        Sphere.mk ⟨-3, 0, 0⟩ 1 ⟨1, 1, 1⟩ 0]
      [Bulb.mk ⟨5, 0, 0⟩ ⟨1, 1, 1⟩] ⟨3, 0, 0⟩ ⟨-1, 0, 0⟩ ⟨0, 0, 1⟩
      ⟨5, 6, 7⟩ = (⟨2, 3, 4⟩ : Color) * ⟨5, 6, 7⟩ := by
  have heval1 : (Sphere.mk ⟨0, 0, 0⟩ 1 ⟨2, 3, 4⟩ 0).intersects ⟨3, 0, 0⟩
      ⟨-1, 0, 0⟩ = some ⟨⟨1, 0, 0⟩, ⟨1, 0, 0⟩, ⟨1, 0, 0⟩⟩ := by
    rw [intersects_eq]
    norm_num [coefB, coefC, Vec3.dot, Vec3.sub_def, hitT, Vec3.normalized,
      Vec3.lengthSquared, Vec3.smul_def, Vec3.add_def, Vec3.mk_zero, reflect,
      Vec3.zero_x, Vec3.zero_y, Vec3.zero_z, Real.sqrt_one]
  have heval2 : (Sphere.mk ⟨-3, 0, 0⟩ 1 ⟨1, 1, 1⟩ 0).intersects ⟨3, 0, 0⟩
      ⟨-1, 0, 0⟩ = some ⟨⟨-2, 0, 0⟩, ⟨1, 0, 0⟩, ⟨1, 0, 0⟩⟩ := by
    rw [intersects_eq]
    norm_num [coefB, coefC, Vec3.dot, Vec3.sub_def, hitT, Vec3.normalized,
      Vec3.lengthSquared, Vec3.smul_def, Vec3.add_def, Vec3.mk_zero, reflect,
      Vec3.zero_x, Vec3.zero_y, Vec3.zero_z, Real.sqrt_one]
  have hfn : findNearest [Sphere.mk ⟨0, 0, 0⟩ 1 ⟨2, 3, 4⟩ 0,
      Sphere.mk ⟨-3, 0, 0⟩ 1 ⟨1, 1, 1⟩ 0] ⟨3, 0, 0⟩ ⟨-1, 0, 0⟩ =
        some (0, Sphere.mk ⟨0, 0, 0⟩ 1 ⟨2, 3, 4⟩ 0,
          Hit.mk ⟨1, 0, 0⟩ ⟨1, 0, 0⟩ ⟨1, 0, 0⟩) := by
    unfold findNearest
    simp only [findNearestAux, heval1, heval2]
    norm_num [Vec3.lengthSquared, Vec3.dot, Vec3.sub_def]
  have h16 : Real.sqrt 16 = 4 := by
    rw [show (16 : ℝ) = 4 ^ 2 by norm_num, Real.sqrt_sq (by norm_num)]
  have hdir : ((⟨1, 0, 0⟩ : Vec3) - ⟨5, 0, 0⟩).normalized =
      (⟨-1, 0, 0⟩ : Vec3) := by
    norm_num [Vec3.normalized, Vec3.sub_def, Vec3.lengthSquared, Vec3.dot,
      Vec3.smul_def, h16]
  have heval3 : (Sphere.mk ⟨-3, 0, 0⟩ 1 ⟨1, 1, 1⟩ 0).intersects ⟨1, 0, 0⟩
      ⟨-1, 0, 0⟩ = some ⟨⟨-2, 0, 0⟩, ⟨1, 0, 0⟩, ⟨1, 0, 0⟩⟩ := by
    rw [intersects_eq]
    norm_num [coefB, coefC, Vec3.dot, Vec3.sub_def, hitT, Vec3.normalized,
      Vec3.lengthSquared, Vec3.smul_def, Vec3.add_def, Vec3.mk_zero, reflect,
      Vec3.zero_x, Vec3.zero_y, Vec3.zero_z, Real.sqrt_one]
  have herase : allBut [Sphere.mk ⟨0, 0, 0⟩ 1 ⟨2, 3, 4⟩ 0,
      Sphere.mk ⟨-3, 0, 0⟩ 1 ⟨1, 1, 1⟩ 0] 0 =
        [Sphere.mk ⟨-3, 0, 0⟩ 1 ⟨1, 1, 1⟩ 0] := rfl
  have hblocked : isBlocked (allBut [Sphere.mk ⟨0, 0, 0⟩ 1 ⟨2, 3, 4⟩ 0,
      Sphere.mk ⟨-3, 0, 0⟩ 1 ⟨1, 1, 1⟩ 0] 0)
      (Bulb.mk ⟨5, 0, 0⟩ ⟨1, 1, 1⟩)
      (Hit.mk ⟨1, 0, 0⟩ ⟨1, 0, 0⟩ ⟨1, 0, 0⟩).point = true := by
    rw [herase]
    unfold isBlocked
    simp only [List.any_cons, List.any_nil]
    rw [hdir, heval3]
    rfl
  exact cast_shadow_occlusion.2 [Sphere.mk ⟨0, 0, 0⟩ 1 ⟨2, 3, 4⟩ 0,
    Sphere.mk ⟨-3, 0, 0⟩ 1 ⟨1, 1, 1⟩ 0] (Bulb.mk ⟨5, 0, 0⟩ ⟨1, 1, 1⟩)
    ⟨3, 0, 0⟩ ⟨-1, 0, 0⟩ ⟨0, 0, 1⟩ ⟨5, 6, 7⟩ 0
    (Sphere.mk ⟨0, 0, 0⟩ 1 ⟨2, 3, 4⟩ 0)
    (Hit.mk ⟨1, 0, 0⟩ ⟨1, 0, 0⟩ ⟨1, 0, 0⟩) hfn rfl hblocked

end Yart
